import Mathlib

/-!
Verification of `make-data-file.py`, a CLI generator of synthetic data files.

The program is embedded shallowly.  Randomness is modelled by two oracle
streams passed to the program: `R : ℕ → ℕ` supplies the draws behind
`random.randint` and `random.choice` (each call consumes one draw, reduced
into range with `%`), and `G : ℕ → ℚ` supplies the unit draws behind
`random.gauss` (`random.gauss(mu, sigma)` returns `mu + z * sigma` for the
drawn noise `z`).  Python floats are abstracted to exact rationals, mutable
process state (`_seq_int.N` and the stream positions) to an explicit record
threaded through every operation, and standard output to the list of printed
lines returned by `runMain`.
-/

namespace MakeDataFile

/-- Tags for the three filler generator functions `_random_int`, `_seq_int`
and `_random_str` appearing in `RANDOM_CTORS`. -/
inductive Ctor
  | rint
  | rseq
  | rstr
deriving DecidableEq

/-- The mutable process state: the read position in the integer-draw stream,
the read position in the gaussian-draw stream, and the attribute
`_seq_int.N` of the sequential counter (initialized to `-1` at line 12). -/
structure PState where
  ridx : ℕ
  gidx : ℕ
  seqN : ℤ
deriving DecidableEq

/-- The state at interpreter start-up: no draws consumed, `_seq_int.N = -1`. -/
def initState : PState := { ridx := 0, gidx := 0, seqN := -1 }

/-- The parsed CLI arguments (`argparse` declarations, lines 25-30). -/
structure Config where
  count : ℤ
  distr : String
  mean : ℚ
  stdev : ℚ
  csv_col : Option ℤ
  csv_col_max : ℤ

/-- The defaults declared for each CLI flag. -/
def defaultConfig : Config :=
  { count := 1000, distr := "gauss", mean := 0, stdev := 1,
    csv_col := none, csv_col_max := 8 }

/-- Model of `random.randint(a, b)`: one draw from `R`, reduced uniformly into the
inclusive range `[a, b]`. -/
def pyRandint (R : ℕ → ℕ) (a b : ℤ) (s : PState) : ℤ × PState :=
  (a + (R s.ridx : ℤ) % (b - a + 1), { s with ridx := s.ridx + 1 })

/-- Model of `random.gauss(mu, sigma)`: it returns `mu + z * sigma` for the unit normal
draw `z`; the draw is taken from the oracle `G`. -/
def pyGauss (G : ℕ → ℚ) (mu sigma : ℚ) (s : PState) : ℚ × PState :=
  (mu + G s.gidx * sigma, { s with gidx := s.gidx + 1 })

/-- Decimal digits of `n` (most significant first, `[]` for `0`), with
explicit fuel; `48` is the code point of the digit `0`. -/
def natStrAux : ℕ → ℕ → List Char
  | 0, _ => []
  | fuel + 1, n =>
    if n = 0 then []
    else natStrAux fuel (n / 10) ++ [Char.ofNat (48 + n % 10)]

/-- Model of Python `str` on a nonnegative integer. -/
def natStr (n : ℕ) : String :=
  if n = 0 then "0" else String.mk (natStrAux n n)

/-- Model of Python `str` on an integer. -/
def intStr (i : ℤ) : String :=
  if i < 0 then "-" ++ natStr i.natAbs else natStr i.natAbs

/-- The function `_seq_int` (lines 9-12): increment the shared attribute `N` and return
its new value. -/
def seq_int (s : PState) : ℤ × PState :=
  (s.seqN + 1, { s with seqN := s.seqN + 1 })

/-- The function `_random_int` (lines 6-7): `random.randint(-1000, 1000)`. -/
def random_int (R : ℕ → ℕ) (s : PState) : ℤ × PState :=
  pyRandint R (-1000) 1000 s

/-- The character draws of `_random_str`: `l` independent
`chr(random.randint(ord('a'), ord('z')))` calls, in order. -/
def randChars (R : ℕ → ℕ) : ℕ → PState → List Char × PState
  | 0, s => ([], s)
  | n + 1, s =>
    let v := pyRandint R 97 122 s
    let rest := randChars R n v.2
    (Char.ofNat v.1.toNat :: rest.1, rest.2)

/-- The function `_random_str` (lines 17-19): a length draw in `[1, 8]`, then that many
lowercase-letter draws, joined into a string. -/
def random_str (R : ℕ → ℕ) (s : PState) : String × PState :=
  let l := pyRandint R 1 8 s
  let cs := randChars R l.1.toNat l.2
  (String.mk cs.1, cs.2)

/-- The list `RANDOM_CTORS` (line 21): the selection pool for filler generators,
with `_random_str` listed twice. -/
def RANDOM_CTORS : List Ctor := [Ctor.rint, Ctor.rseq, Ctor.rstr, Ctor.rstr]

/-- Model of `random.choice(seq)`: one draw from `R`, reduced uniformly to an index
into the sequence. -/
def pyChoice (R : ℕ → ℕ) (pool : List Ctor) (s : PState) : Ctor × PState :=
  (pool.getD (R s.ridx % pool.length) Ctor.rint, { s with ridx := s.ridx + 1 })

/-- One filler generator invocation, `str(ctor())`: the integer results
are rendered with `str`, `_random_str` already returns a string. -/
def runCtor (R : ℕ → ℕ) : Ctor → PState → String × PState
  | Ctor.rint, s =>
    let v := random_int R s
    (intStr v.1, v.2)
  | Ctor.rseq, s =>
    let v := seq_int s
    (intStr v.1, v.2)
  | Ctor.rstr, s => random_str R s

/-- Left-pad a digit list with `0` characters to the given length. -/
def padZeros (len : ℕ) (ds : List Char) : List Char :=
  List.replicate (len - ds.length) (Char.ofNat 48) ++ ds

/-- Drop trailing `0` characters, keeping at least one character. -/
def trimZeros (ds : List Char) : List Char :=
  let r := (ds.reverse).dropWhile (fun c => c = Char.ofNat 48)
  if r = [] then [Char.ofNat 48] else r.reverse

/-- Model of Python `str` on the sampled float, over the exact-rational
abstraction: optional sign, the integer part, a decimal point, and the
fractional digits (17 digits, trailing zeros trimmed down to at least one
digit).  In particular `pyFloatStr 0 = "0.0"`, matching `str(0.0)`.
For `|q| = p / d` the integer part is `p / d` and the fractional digit
block is `⌊(p % d) / d * 10 ^ 17⌋ = p % d * 10 ^ 17 / d`, both computed in
`ℕ`. -/
def pyFloatStr (q : ℚ) : String :=
  let p : ℕ := q.num.natAbs
  let d : ℕ := q.den
  let ip : ℕ := p / d
  let fr : ℕ := p % d * 10 ^ 17 / d
  (if q.num < 0 then "-" else "") ++ natStr ip ++ "." ++
    String.mk (trimZeros (padZeros 17 (natStrAux fr fr)))

/-- Comma join of the fields, `",".join(data)` (line 49). -/
def joinComma : List String → String
  | [] => ""
  | [f] => f
  | f :: g :: fs => f ++ "," ++ joinComma (g :: fs)

/-- Accumulator recursion behind `splitComma`. -/
def splitCommaAux : List Char → List Char → List (List Char)
  | [], acc => [acc.reverse]
  | c :: cs, acc =>
    if c = ',' then acc.reverse :: splitCommaAux cs []
    else splitCommaAux cs (c :: acc)

/-- Model of `line.split(",")`: the comma-separated fields of a line (an empty line
yields the single field `""`, as in Python). -/
def splitComma (s : String) : List String :=
  (splitCommaAux s.data []).map String.mk

/-- Python `range(n)` over an integer bound, as the list of its elements. -/
def intRange (n : ℤ) : List ℤ :=
  (List.range n.toNat).map (fun i : ℕ => (i : ℤ))

/-- The list comprehension building `other_ctors` (lines 43-44): for each
index of `range(csv_col_max)`, either `None` at the target column or one
`random.choice(RANDOM_CTORS)` draw. -/
def buildPlanAux (R : ℕ → ℕ) (k : ℤ) :
    List ℤ → PState → List (Option Ctor) × PState
  | [], s => ([], s)
  | i :: is, s =>
    if i = k then
      let rest := buildPlanAux R k is s
      (none :: rest.1, rest.2)
    else
      let c := pyChoice R RANDOM_CTORS s
      let rest := buildPlanAux R k is c.2
      (some c.1 :: rest.1, rest.2)

/-- The list comprehension building `data` inside the CSV `print_one`
(lines 47-48): filler invocations left to right, the sampled value `x`
rendered at the `None` slot. -/
def genFields (R : ℕ → ℕ) (x : ℚ) :
    List (Option Ctor) → PState → List String × PState
  | [], s => ([], s)
  | none :: rest, s =>
    let tl := genFields R x rest s
    (pyFloatStr x :: tl.1, tl.2)
  | some c :: rest, s =>
    let f := runCtor R c s
    let tl := genFields R x rest f.2
    (f.1 :: tl.1, tl.2)

/-- The non-CSV `print_one` (lines 40-41): the line is `str(x)`. -/
def printOnePlain (x : ℚ) (s : PState) : String × PState :=
  (pyFloatStr x, s)

/-- The CSV `print_one` (lines 46-49): generate the fields, join with
commas. -/
def printOneCsv (R : ℕ → ℕ) (plan : List (Option Ctor)) (x : ℚ)
    (s : PState) : String × PState :=
  let fs := genFields R x plan s
  (joinComma fs.1, fs.2)

/-- The main loop (lines 51-52): `count` iterations of `rng()` followed by
`print_one`, collecting the printed lines in order. -/
def emitLines (G : ℕ → ℚ) (mu sigma : ℚ)
    (po : ℚ → PState → String × PState) :
    ℕ → PState → List String × PState
  | 0, s => ([], s)
  | n + 1, s =>
    let x := pyGauss G mu sigma s
    let line := po x.1 x.2
    let rest := emitLines G mu sigma po n line.2
    (line.1 :: rest.1, rest.2)

/-- The function `main` (lines 23-52): validate the distribution, build the row printer
(non-CSV, or CSV with the filler plan drawn once up front), then loop
`count` times.  The result is the list of printed lines, or the fatal
configuration error for an unsupported distribution (the `argparse`
`choices` check at line 26 and the `raise AssertionError` at line 37 both
stop the process with a non-zero status before anything is printed). -/
def runMain (R : ℕ → ℕ) (G : ℕ → ℚ) (args : Config) :
    Except String (List String) :=
  if args.distr = "gauss" then
    match args.csv_col with
    | none =>
      Except.ok
        (emitLines G args.mean args.stdev printOnePlain
          args.count.toNat initState).1
    | some k =>
      let plan := buildPlanAux R k (intRange args.csv_col_max) initState
      Except.ok
        (emitLines G args.mean args.stdev (printOneCsv R plan.1)
          args.count.toNat plan.2).1
  else
    Except.error ("Invalid distr " ++ args.distr)

/-- Decimal digit characters (code points 48 to 57). -/
def isDigitCh (c : Char) : Bool := 48 ≤ c.toNat && c.toNat ≤ 57

/-- Lowercase ASCII letters (code points 97 to 122). -/
def isLowerCh (c : Char) : Bool := 97 ≤ c.toNat && c.toNat ≤ 122

/-- A string of the shape produced by `str` on an integer: an optional
leading minus sign followed by at least one decimal digit. -/
def isIntStr (s : String) : Bool :=
  match s.data with
  | [] => false
  | c :: rest =>
    if c = '-' then !rest.isEmpty && rest.all isDigitCh
    else (c :: rest).all isDigitCh

/-- A nonempty string of lowercase ASCII letters, the shape produced by
`_random_str`. -/
def isAlphaStr (s : String) : Bool :=
  !s.data.isEmpty && s.data.all isLowerCh

/-- Acceptance by `float()` of a plain decimal literal: an optional sign,
then digits with an optional decimal point, at least one digit in total
(a sublanguage of the full Python float grammar, sufficient for every
string this program prints in a value column). -/
def parsesAsFloat (s : String) : Bool :=
  let cs0 := s.data
  let cs := match cs0 with
            | c :: rest => if c = '-' || c = '+' then rest else cs0
            | [] => []
  let intPart := cs.takeWhile isDigitCh
  let rest := cs.dropWhile isDigitCh
  match rest with
  | [] => !intPart.isEmpty
  | dot :: rest2 =>
    if dot = '.' then
      let fracPart := rest2.takeWhile isDigitCh
      let rest3 := rest2.dropWhile isDigitCh
      rest3.isEmpty && (!intPart.isEmpty || !fracPart.isEmpty)
    else false

/-- The numeric value of a decimal digit string (used to show that `natStr`
is injective). -/
def valDigits (ds : List Char) : ℕ :=
  ds.foldl (fun a c => a * 10 + (c.toNat - 48)) 0

/-- The observable shape of one CSV field, as a function of the plan entry
that produced it: the `None` slot carries the rendered sample `x`, integer
fillers render as integers, string fillers as lowercase strings. -/
def FieldMatches (x : ℚ) : Option Ctor → String → Prop
  | none, f => f = pyFloatStr x
  | some Ctor.rint, f => isIntStr f = true
  | some Ctor.rseq, f => isIntStr f = true
  | some Ctor.rstr, f => isAlphaStr f = true

/-- How many columns of a filler plan use the sequential counter. -/
def countSeq (plan : List (Option Ctor)) : ℕ :=
  plan.countP (fun p => p = some Ctor.rseq)

/-- The fields of one row that sit in sequential-counter columns, in
left-to-right column order. -/
def seqFields (plan : List (Option Ctor)) (fields : List String) : List String :=
  (plan.zip fields).filterMap
    (fun pf => if pf.1 = some Ctor.rseq then some pf.2 else none)

/-- The values returned by `n` consecutive `_seq_int()` invocations from a
given state. -/
def seqOutputs : ℕ → PState → List ℤ
  | 0, _ => []
  | n + 1, s =>
    let v := seq_int s
    v.1 :: seqOutputs n v.2

/-- An all-zero integer-draw oracle (used to instantiate theorems at
concrete runs). -/
def R0 : ℕ → ℕ := fun _ => 0

/-- An all-one integer-draw oracle: `random.choice` then always selects
index 1 of `RANDOM_CTORS`, the sequential counter. -/
def R1 : ℕ → ℕ := fun _ => 1

/-- An all-zero gaussian-draw oracle. -/
def G0 : ℕ → ℚ := fun _ => 0

/-- Data-file run of the worked spec example: 5 gaussian values with zero
mean and zero standard deviation, no CSV mode. -/
def config8 : Config :=
  { count := 5, distr := "gauss", mean := 0, stdev := 0,
    csv_col := none, csv_col_max := 8 }

/-- A plain two-line non-CSV run. -/
def configPlain : Config :=
  { count := 2, distr := "gauss", mean := 0, stdev := 1,
    csv_col := none, csv_col_max := 8 }

/-- A one-row CSV run with the sampled value in column 1 of 3. -/
def configCsv : Config :=
  { count := 1, distr := "gauss", mean := 0, stdev := 1,
    csv_col := some 1, csv_col_max := 3 }

/-- A configuration whose distribution name is not supported. -/
def configBad : Config :=
  { count := 2, distr := "uniform", mean := 0, stdev := 1,
    csv_col := none, csv_col_max := 8 }

/-- A negative-count configuration. -/
def configNeg : Config :=
  { count := -3, distr := "gauss", mean := 0, stdev := 1,
    csv_col := none, csv_col_max := 8 }

/-- CSV mode with zero columns: the degenerate case where each printed line
is empty. -/
def configZeroCols : Config :=
  { count := 1, distr := "gauss", mean := 0, stdev := 0,
    csv_col := some 1, csv_col_max := 0 }

/-- CSV mode with the target column out of range. -/
def configOutOfRange : Config :=
  { count := 1, distr := "gauss", mean := 0, stdev := 0,
    csv_col := some 5, csv_col_max := 2 }

/-! ### Character and digit-string lemmas -/

theorem data_append (s t : String) : (s ++ t).data = s.data ++ t.data := by
  cases s
  cases t
  rfl

theorem char_toNat_ofNat {n : ℕ} (h : n < 55296) : (Char.ofNat n).toNat = n := by
  have hv : n.isValidChar := Or.inl h
  simp [Char.ofNat, hv]
  rfl

theorem isDigitCh_digit {d : ℕ} (hd : d < 10) :
    isDigitCh (Char.ofNat (48 + d)) = true := by
  have h : (Char.ofNat (48 + d)).toNat = 48 + d := char_toNat_ofNat (by omega)
  simp [isDigitCh, h]
  omega

theorem toNat_digit {d : ℕ} (hd : d < 10) :
    (Char.ofNat (48 + d)).toNat = 48 + d := char_toNat_ofNat (by omega)

theorem isDigitCh_forbids {c : Char} (h : isDigitCh c = true) :
    c ≠ ',' ∧ c ≠ '.' ∧ c ≠ '-' := by
  refine ⟨?_, ?_, ?_⟩ <;> intro he <;> rw [he] at h <;> exact absurd h (by decide)

theorem isLowerCh_forbids {c : Char} (h : isLowerCh c = true) :
    c ≠ ',' ∧ c ≠ '.' := by
  refine ⟨?_, ?_⟩ <;> intro he <;> rw [he] at h <;> exact absurd h (by decide)

theorem natStrAux_zero (fuel : ℕ) : natStrAux fuel 0 = [] := by
  cases fuel <;> simp [natStrAux]

theorem natStrAux_digits :
    ∀ fuel n : ℕ, ∀ c ∈ natStrAux fuel n, isDigitCh c = true := by
  intro fuel
  induction fuel with
  | zero => intro n c hc; simp [natStrAux] at hc
  | succ f ih =>
    intro n c hc
    by_cases hn : n = 0
    · subst hn; simp [natStrAux] at hc
    · rw [show natStrAux (f + 1) n
          = natStrAux f (n / 10) ++ [Char.ofNat (48 + n % 10)] by
            simp [natStrAux, hn]] at hc
      rcases List.mem_append.1 hc with h | h
      · exact ih _ _ h
      · rw [List.mem_singleton.1 h]
        exact isDigitCh_digit (Nat.mod_lt _ (by omega))

theorem natStr_digits (n : ℕ) : ∀ c ∈ (natStr n).data, isDigitCh c = true := by
  by_cases hn : n = 0
  · subst hn; intro c hc; simp [natStr] at hc; rw [hc]; decide
  · intro c hc
    rw [show (natStr n).data = natStrAux n n by simp [natStr, hn]] at hc
    exact natStrAux_digits n n c hc

theorem natStr_ne_nil (n : ℕ) : (natStr n).data ≠ [] := by
  by_cases hn : n = 0
  · subst hn; decide
  · rw [show (natStr n).data = natStrAux n n by simp [natStr, hn]]
    rcases Nat.exists_eq_add_of_lt (Nat.pos_of_ne_zero hn) with ⟨f, hf⟩
    rw [show n = f + 1 by omega]
    simp [natStrAux]

theorem valDigits_append (l : List Char) (c : Char) :
    valDigits (l ++ [c]) = valDigits l * 10 + (c.toNat - 48) := by
  simp [valDigits, List.foldl_append]

theorem natStrAux_val :
    ∀ n fuel : ℕ, n ≤ fuel → valDigits (natStrAux fuel n) = n := by
  intro n
  induction n using Nat.strong_induction_on with
  | _ n ih =>
    intro fuel hfuel
    by_cases hn : n = 0
    · subst hn; rw [natStrAux_zero]; rfl
    · obtain ⟨f, rfl⟩ : ∃ f, fuel = f + 1 := by
        cases fuel
        · omega
        · exact ⟨_, rfl⟩
      rw [show natStrAux (f + 1) n
          = natStrAux f (n / 10) ++ [Char.ofNat (48 + n % 10)] by
            simp [natStrAux, hn]]
      rw [valDigits_append]
      have hlt : n / 10 < n := Nat.div_lt_self (Nat.pos_of_ne_zero hn) (by omega)
      rw [ih (n / 10) hlt f (by omega)]
      rw [toNat_digit (Nat.mod_lt _ (by omega))]
      omega

theorem natStr_val (n : ℕ) : valDigits (natStr n).data = n := by
  by_cases hn : n = 0
  · subst hn; decide
  · rw [show (natStr n).data = natStrAux n n by simp [natStr, hn]]
    exact natStrAux_val n n le_rfl

theorem natStr_inj {a b : ℕ} (h : natStr a = natStr b) : a = b := by
  have := congrArg (fun s => valDigits s.data) h
  simpa [natStr_val] using this

/-! ### Lemmas about `intStr` -/

theorem intStr_data (i : ℤ) :
    (intStr i).data
      = (if i < 0 then ['-'] else []) ++ (natStr i.natAbs).data := by
  by_cases h : i < 0 <;> simp [intStr, h, data_append]

theorem intStr_chars {i : ℤ} :
    ∀ c ∈ (intStr i).data, isDigitCh c = true ∨ c = '-' := by
  intro c hc
  rw [intStr_data] at hc
  rcases List.mem_append.1 hc with h | h
  · right
    by_cases hi : i < 0
    · simpa [hi] using h
    · simp [hi] at h
  · left; exact natStr_digits _ c h

theorem isIntStr_of_digits {s : String} (h1 : s.data ≠ [])
    (h2 : ∀ c ∈ s.data, isDigitCh c = true) : isIntStr s = true := by
  rcases hd : s.data with _ | ⟨c, rest⟩
  · exact absurd hd h1
  · have hcd : isDigitCh c = true := h2 c (by rw [hd]; exact List.mem_cons_self c rest)
    have hcne : c ≠ '-' := (isDigitCh_forbids hcd).2.2
    simp only [isIntStr, hd, if_neg hcne, List.all_eq_true]
    intro x hx
    exact h2 x (by rw [hd]; exact hx)

theorem isIntStr_intStr (i : ℤ) : isIntStr (intStr i) = true := by
  by_cases h : i < 0
  · have hd : (intStr i).data = '-' :: (natStr i.natAbs).data := by
      rw [intStr_data]; simp [h]
    have e1 : (natStr i.natAbs).data.isEmpty = false := by
      cases hd2 : (natStr i.natAbs).data
      · exact absurd hd2 (natStr_ne_nil _)
      · rfl
    have e2 : (natStr i.natAbs).data.all isDigitCh = true :=
      List.all_eq_true.2 (natStr_digits _)
    simp only [isIntStr, hd, if_pos rfl, e1, e2]
    rfl
  · have hd : (intStr i).data = (natStr i.natAbs).data := by
      rw [intStr_data]; simp [h]
    apply isIntStr_of_digits
    · rw [hd]; exact natStr_ne_nil _
    · rw [hd]; exact natStr_digits _

theorem isIntStr_chars {s : String} (h : isIntStr s = true) :
    ∀ c ∈ s.data, isDigitCh c = true ∨ c = '-' := by
  intro c hc
  rcases hd : s.data with _ | ⟨c0, rest⟩
  · rw [hd] at hc; exact absurd hc (List.not_mem_nil c)
  · rw [hd] at hc
    simp only [isIntStr, hd] at h
    by_cases hm : c0 = '-'
    · rw [if_pos hm, Bool.and_eq_true] at h
      rcases List.mem_cons.1 hc with rfl | hc2
      · right; exact hm
      · left
        exact (List.all_eq_true.1 h.2) c hc2
    · rw [if_neg hm] at h
      left
      exact (List.all_eq_true.1 h) c (by rw [← hd] at hc ⊢; exact hc)

theorem isAlphaStr_chars {s : String} (h : isAlphaStr s = true) :
    ∀ c ∈ s.data, isLowerCh c = true := by
  simp only [isAlphaStr, Bool.and_eq_true, List.all_eq_true] at h
  exact h.2

/-! ### Lemmas about `pyFloatStr` -/

theorem trimZeros_ne_nil (ds : List Char) : trimZeros ds ≠ [] := by
  unfold trimZeros
  by_cases h : ds.reverse.dropWhile (fun c => c = Char.ofNat 48) = []
  · simp [h]
  · simp [h]

theorem mem_trimZeros {c : Char} {ds : List Char} (h : c ∈ trimZeros ds) :
    c ∈ ds ∨ c = Char.ofNat 48 := by
  unfold trimZeros at h
  by_cases he : ds.reverse.dropWhile (fun c => c = Char.ofNat 48) = []
  · rw [if_pos he] at h
    right; exact List.mem_singleton.1 h
  · rw [if_neg he] at h
    left
    have h2 : c ∈ ds.reverse.dropWhile (fun c => c = Char.ofNat 48) :=
      List.mem_reverse.1 h
    have h3 : c ∈ ds.reverse := (List.dropWhile_sublist _).mem h2
    exact List.mem_reverse.1 h3

theorem mem_padZeros {c : Char} {len : ℕ} {ds : List Char}
    (h : c ∈ padZeros len ds) : c ∈ ds ∨ c = Char.ofNat 48 := by
  unfold padZeros at h
  rcases List.mem_append.1 h with h2 | h2
  · right; exact List.eq_of_mem_replicate h2
  · left; exact h2

theorem pyFloatStr_shape (q : ℚ) :
    ∃ sign ds fs : List Char,
      (pyFloatStr q).data = sign ++ ds ++ '.' :: fs ∧
      (sign = [] ∨ sign = ['-']) ∧
      ds ≠ [] ∧ (∀ c ∈ ds, isDigitCh c = true) ∧
      fs ≠ [] ∧ (∀ c ∈ fs, isDigitCh c = true) := by
  refine ⟨(if q.num < 0 then "-" else "").data,
    (natStr (q.num.natAbs / q.den)).data,
    trimZeros (padZeros 17
      (natStrAux (q.num.natAbs % q.den * 10 ^ 17 / q.den)
        (q.num.natAbs % q.den * 10 ^ 17 / q.den))), ?_, ?_, ?_, ?_, ?_, ?_⟩
  · show (pyFloatStr q).data = _
    unfold pyFloatStr
    simp only [data_append]
    simp
  · by_cases h : q.num < 0 <;> simp [h]
  · exact natStr_ne_nil _
  · exact natStr_digits _
  · exact trimZeros_ne_nil _
  · intro c hc
    rcases mem_trimZeros hc with h | h
    · rcases mem_padZeros h with h2 | h2
      · exact natStrAux_digits _ _ c h2
      · rw [h2]; decide
    · rw [h]; decide

theorem pyFloatStr_chars {q : ℚ} :
    ∀ c ∈ (pyFloatStr q).data, isDigitCh c = true ∨ c = '-' ∨ c = '.' := by
  obtain ⟨sign, ds, fs, hdata, hsign, _, hds, _, hfs⟩ := pyFloatStr_shape q
  intro c hc
  rw [hdata] at hc
  rcases List.mem_append.1 hc with h | h
  · rcases List.mem_append.1 h with h2 | h2
    · rcases hsign with rfl | rfl
      · exact absurd h2 (List.not_mem_nil c)
      · right; left; exact List.mem_singleton.1 h2
    · left; exact hds c h2
  · rcases List.mem_cons.1 h with rfl | h2
    · right; right; rfl
    · left; exact hfs c h2

theorem pyFloatStr_no_comma (q : ℚ) : ',' ∉ (pyFloatStr q).data := by
  intro h
  rcases pyFloatStr_chars ',' h with h2 | h2 | h2
  · exact absurd h2 (by decide)
  · exact absurd h2 (by decide)
  · exact absurd h2 (by decide)

theorem pyFloatStr_has_dot (q : ℚ) : '.' ∈ (pyFloatStr q).data := by
  obtain ⟨sign, ds, fs, hdata, _, _, _, _, _⟩ := pyFloatStr_shape q
  rw [hdata]
  exact List.mem_append.2 (Or.inr (List.mem_cons_self _ _))

theorem isIntStr_pyFloatStr (q : ℚ) : isIntStr (pyFloatStr q) = false := by
  by_contra h
  have h2 : isIntStr (pyFloatStr q) = true := by
    cases hb : isIntStr (pyFloatStr q)
    · exact absurd hb h
    · rfl
  rcases isIntStr_chars h2 '.' (pyFloatStr_has_dot q) with h3 | h3
  · exact absurd h3 (by decide)
  · exact absurd h3 (by decide)

theorem isAlphaStr_pyFloatStr (q : ℚ) : isAlphaStr (pyFloatStr q) = false := by
  by_contra h
  have h2 : isAlphaStr (pyFloatStr q) = true := by
    cases hb : isAlphaStr (pyFloatStr q)
    · exact absurd hb h
    · rfl
  have h3 := isAlphaStr_chars h2 '.' (pyFloatStr_has_dot q)
  exact absurd h3 (by decide)

theorem takeWhile_append_all {α : Type} {p : α → Bool} :
    ∀ {l r : List α}, (∀ c ∈ l, p c = true) →
      (l ++ r).takeWhile p = l ++ r.takeWhile p := by
  intro l
  induction l with
  | nil => intro r _; rfl
  | cons a l ih =>
    intro r h
    have ha : p a = true := h a (List.mem_cons_self a l)
    simp only [List.cons_append, List.takeWhile_cons, ha, if_pos]
    rw [ih (fun c hc => h c (List.mem_cons_of_mem a hc))]

theorem dropWhile_append_all {α : Type} {p : α → Bool} :
    ∀ {l r : List α}, (∀ c ∈ l, p c = true) →
      (l ++ r).dropWhile p = r.dropWhile p := by
  intro l
  induction l with
  | nil => intro r _; rfl
  | cons a l ih =>
    intro r h
    have ha : p a = true := h a (List.mem_cons_self a l)
    simp only [List.cons_append, List.dropWhile_cons, ha, if_pos]
    exact ih (fun c hc => h c (List.mem_cons_of_mem a hc))

theorem takeWhile_all {α : Type} {p : α → Bool} {l : List α}
    (h : ∀ c ∈ l, p c = true) : l.takeWhile p = l := by
  have := takeWhile_append_all (r := ([] : List α)) h
  simpa using this

theorem dropWhile_all {α : Type} {p : α → Bool} {l : List α}
    (h : ∀ c ∈ l, p c = true) : l.dropWhile p = [] := by
  have := dropWhile_append_all (r := ([] : List α)) h
  simpa using this

theorem parsesAsFloat_of_data {s : String} {sign ds fs : List Char}
    (hdata : s.data = sign ++ ds ++ '.' :: fs)
    (hs : sign = [] ∨ sign = ['-'])
    (hd1 : ds ≠ []) (hd2 : ∀ c ∈ ds, isDigitCh c = true)
    (hf1 : fs ≠ []) (hf2 : ∀ c ∈ fs, isDigitCh c = true) :
    parsesAsFloat s = true := by
  obtain ⟨d0, ds2, rfl⟩ : ∃ d0 ds2, ds = d0 :: ds2 := by
    cases ds
    · exact absurd rfl hd1
    · exact ⟨_, _, rfl⟩
  have hdot : isDigitCh '.' = false := by decide
  have htake : (d0 :: (ds2 ++ '.' :: fs)).takeWhile isDigitCh = d0 :: ds2 := by
    rw [← List.cons_append, takeWhile_append_all hd2]
    simp [List.takeWhile_cons, hdot]
  have hdrop : (d0 :: (ds2 ++ '.' :: fs)).dropWhile isDigitCh = '.' :: fs := by
    rw [← List.cons_append, dropWhile_append_all hd2]
    simp [List.dropWhile_cons, hdot]
  have hfrac : fs.takeWhile isDigitCh = fs := takeWhile_all hf2
  have hfrac2 : fs.dropWhile isDigitCh = [] := dropWhile_all hf2
  have hfse : fs.isEmpty = false := by
    cases hfs : fs
    · exact absurd hfs hf1
    · rfl
  unfold parsesAsFloat
  rw [hdata]
  rcases hs with rfl | rfl
  · have hne : (decide (d0 = '-') || decide (d0 = '+')) = false := by
      have h1 := (isDigitCh_forbids (hd2 d0 (List.mem_cons_self _ _))).2.2
      have h2 : d0 ≠ '+' := by
        intro he
        have := hd2 d0 (List.mem_cons_self _ _)
        rw [he] at this
        exact absurd this (by decide)
      simp [h1, h2]
    simp only [List.nil_append, List.cons_append, hne, Bool.false_eq_true,
      if_false, htake, hdrop]
    simp [hfrac, hfrac2, hfse]
  · simp only [List.cons_append, List.nil_append]
    simp [htake, hdrop, hfrac, hfrac2, hfse]

theorem parsesAsFloat_pyFloatStr (q : ℚ) :
    parsesAsFloat (pyFloatStr q) = true := by
  obtain ⟨sign, ds, fs, hdata, hsign, hd1, hd2, hf1, hf2⟩ := pyFloatStr_shape q
  exact parsesAsFloat_of_data hdata hsign hd1 hd2 hf1 hf2

/-! ### Splitting a joined line recovers the fields -/

theorem splitCommaAux_no_comma :
    ∀ (cs acc : List Char), ',' ∉ cs →
      splitCommaAux cs acc = [acc.reverse ++ cs] := by
  intro cs
  induction cs with
  | nil => intro acc _; simp [splitCommaAux]
  | cons c cs ih =>
    intro acc h
    have hc : ¬(c = ',') := fun he => h (he ▸ List.mem_cons_self c cs)
    simp only [splitCommaAux, if_neg hc]
    rw [ih (c :: acc) (fun hm => h (List.mem_cons_of_mem c hm))]
    simp

theorem splitCommaAux_append :
    ∀ (pre rest acc : List Char), ',' ∉ pre →
      splitCommaAux (pre ++ ',' :: rest) acc
        = (acc.reverse ++ pre) :: splitCommaAux rest [] := by
  intro pre
  induction pre with
  | nil =>
    intro rest acc _
    simp [splitCommaAux]
  | cons c pre ih =>
    intro rest acc h
    have hc : ¬(c = ',') := fun he => h (he ▸ List.mem_cons_self c pre)
    simp only [List.cons_append, splitCommaAux, if_neg hc, List.append_eq]
    rw [ih rest (c :: acc) (fun hm => h (List.mem_cons_of_mem c hm))]
    simp

theorem joinComma_data_cons (f g : String) (fs : List String) :
    (joinComma (f :: g :: fs)).data = f.data ++ ',' :: (joinComma (g :: fs)).data := by
  show (f ++ "," ++ joinComma (g :: fs)).data = _
  rw [data_append, data_append]
  simp

theorem splitComma_joinComma :
    ∀ fs : List String, fs ≠ [] → (∀ f ∈ fs, ',' ∉ f.data) →
      splitComma (joinComma fs) = fs := by
  intro fs
  induction fs with
  | nil => intro h _; exact absurd rfl h
  | cons f rest ih =>
    intro _ hno
    cases rest with
    | nil =>
      show (splitCommaAux (joinComma [f]).data []).map String.mk = [f]
      rw [show joinComma [f] = f from rfl]
      rw [splitCommaAux_no_comma f.data [] (hno f (List.mem_cons_self f []))]
      simp
    | cons g gs =>
      show (splitCommaAux (joinComma (f :: g :: gs)).data []).map String.mk = _
      rw [joinComma_data_cons]
      rw [splitCommaAux_append f.data _ [] (hno f (List.mem_cons_self _ _))]
      simp only [List.map_cons, List.reverse_nil, List.nil_append]
      have ihg := ih (by simp)
        (fun x hx => hno x (List.mem_cons_of_mem f hx))
      simp only [splitComma] at ihg
      rw [ihg]

/-! ### Shapes of the filler generator outputs -/

theorem randChars_length (R : ℕ → ℕ) :
    ∀ (n : ℕ) (s : PState), (randChars R n s).1.length = n := by
  intro n
  induction n with
  | zero => intro s; rfl
  | succ m ih => intro s; simpa [randChars] using ih _

theorem randChars_lower (R : ℕ → ℕ) :
    ∀ (n : ℕ) (s : PState), ∀ c ∈ (randChars R n s).1, isLowerCh c = true := by
  intro n
  induction n with
  | zero => intro s c hc; simp [randChars] at hc
  | succ m ih =>
    intro s c hc
    simp only [randChars, List.mem_cons] at hc
    rcases hc with rfl | hc
    · have hmod : (0 : ℤ) ≤ (R s.ridx : ℤ) % (122 - 97 + 1) ∧
          (R s.ridx : ℤ) % (122 - 97 + 1) < 26 := by
        constructor
        · exact Int.emod_nonneg _ (by decide)
        · exact Int.emod_lt_of_pos _ (by decide)
      set r : ℤ := (R s.ridx : ℤ) % (122 - 97 + 1) with hr
      have hval : (97 + r).toNat = 97 + r.toNat := by omega
      have hlow : 97 ≤ 97 + r.toNat ∧ 97 + r.toNat ≤ 122 := by omega
      show isLowerCh (Char.ofNat ((pyRandint R 97 122 s).1.toNat)) = true
      simp only [pyRandint, ← hr, hval]
      have hch : (Char.ofNat (97 + r.toNat)).toNat = 97 + r.toNat :=
        char_toNat_ofNat (by omega)
      simp [isLowerCh, hch]
      omega
    · exact ih _ c hc

theorem random_str_alpha (R : ℕ → ℕ) (s : PState) :
    isAlphaStr (random_str R s).1 = true := by
  unfold random_str isAlphaStr
  have hlen := randChars_length R ((pyRandint R 1 8 s).1.toNat) (pyRandint R 1 8 s).2
  have hpos : 1 ≤ (pyRandint R 1 8 s).1.toNat := by
    have h0 : (0 : ℤ) ≤ (R s.ridx : ℤ) % (8 - 1 + 1) := Int.emod_nonneg _ (by decide)
    simp only [pyRandint]
    omega
  have hne : ((randChars R ((pyRandint R 1 8 s).1.toNat) (pyRandint R 1 8 s).2).1).isEmpty = false := by
    rcases hc : (randChars R ((pyRandint R 1 8 s).1.toNat) (pyRandint R 1 8 s).2).1 with _ | _
    · rw [hc] at hlen
      simp at hlen
      omega
    · rfl
  simp only [hne]
  simp [List.all_eq_true]
  exact fun c hc => randChars_lower R _ _ c hc

/-! ### State bookkeeping: which components each operation can change -/

theorem randChars_gidx (R : ℕ → ℕ) :
    ∀ (n : ℕ) (s : PState), ((randChars R n s).2).gidx = s.gidx := by
  intro n
  induction n with
  | zero => intro s; rfl
  | succ m ih => intro s; simpa [randChars] using ih _

theorem randChars_seqN (R : ℕ → ℕ) :
    ∀ (n : ℕ) (s : PState), ((randChars R n s).2).seqN = s.seqN := by
  intro n
  induction n with
  | zero => intro s; rfl
  | succ m ih => intro s; simpa [randChars] using ih _

theorem random_str_gidx (R : ℕ → ℕ) (s : PState) :
    ((random_str R s).2).gidx = s.gidx := by
  simpa [random_str] using randChars_gidx R _ _

theorem random_str_seqN (R : ℕ → ℕ) (s : PState) :
    ((random_str R s).2).seqN = s.seqN := by
  simpa [random_str] using randChars_seqN R _ _

theorem runCtor_gidx (R : ℕ → ℕ) (c : Ctor) (s : PState) :
    ((runCtor R c s).2).gidx = s.gidx := by
  cases c
  · rfl
  · rfl
  · exact random_str_gidx R s

theorem genFields_gidx (R : ℕ → ℕ) (x : ℚ) :
    ∀ (plan : List (Option Ctor)) (s : PState),
      ((genFields R x plan s).2).gidx = s.gidx := by
  intro plan
  induction plan with
  | nil => intro s; rfl
  | cons p rest ih =>
    intro s
    cases p with
    | none => simpa [genFields] using ih s
    | some c =>
      show ((genFields R x rest (runCtor R c s).2).2).gidx = s.gidx
      rw [ih _, runCtor_gidx]

theorem buildPlanAux_gidx (R : ℕ → ℕ) (k : ℤ) :
    ∀ (idxs : List ℤ) (s : PState),
      ((buildPlanAux R k idxs s).2).gidx = s.gidx := by
  intro idxs
  induction idxs with
  | nil => intro s; rfl
  | cons i is ih =>
    intro s
    by_cases hi : i = k
    · simpa [buildPlanAux, hi] using ih s
    · simpa [buildPlanAux, hi] using ih _

theorem buildPlanAux_seqN (R : ℕ → ℕ) (k : ℤ) :
    ∀ (idxs : List ℤ) (s : PState),
      ((buildPlanAux R k idxs s).2).seqN = s.seqN := by
  intro idxs
  induction idxs with
  | nil => intro s; rfl
  | cons i is ih =>
    intro s
    by_cases hi : i = k
    · simpa [buildPlanAux, hi] using ih s
    · simpa [buildPlanAux, hi] using ih _

theorem printOneCsv_gidx (R : ℕ → ℕ) (plan : List (Option Ctor)) (x : ℚ)
    (s : PState) : ((printOneCsv R plan x s).2).gidx = s.gidx :=
  genFields_gidx R x plan s

theorem printOnePlain_gidx (x : ℚ) (s : PState) :
    ((printOnePlain x s).2).gidx = s.gidx := rfl

/-! ### The shape of one generated row -/

theorem runCtor_matches (R : ℕ → ℕ) (x : ℚ) (c : Ctor) (s : PState) :
    FieldMatches x (some c) (runCtor R c s).1 := by
  cases c
  · exact isIntStr_intStr _
  · exact isIntStr_intStr _
  · exact random_str_alpha R s

theorem genFields_forall₂ (R : ℕ → ℕ) (x : ℚ) :
    ∀ (plan : List (Option Ctor)) (s : PState),
      List.Forall₂ (FieldMatches x) plan (genFields R x plan s).1 := by
  intro plan
  induction plan with
  | nil => intro s; exact List.Forall₂.nil
  | cons p rest ih =>
    intro s
    cases p with
    | none => exact List.Forall₂.cons rfl (ih s)
    | some c => exact List.Forall₂.cons (runCtor_matches R x c s) (ih _)

theorem genFields_length (R : ℕ → ℕ) (x : ℚ) (plan : List (Option Ctor))
    (s : PState) : (genFields R x plan s).1.length = plan.length :=
  (genFields_forall₂ R x plan s).length_eq.symm

theorem fieldMatches_no_comma {x : ℚ} {p : Option Ctor} {f : String}
    (h : FieldMatches x p f) : ',' ∉ f.data := by
  match p, h with
  | none, h =>
    rw [h]
    exact pyFloatStr_no_comma x
  | some Ctor.rint, h =>
    intro hc
    rcases isIntStr_chars h ',' hc with h2 | h2
    · exact absurd h2 (by decide)
    · exact absurd h2 (by decide)
  | some Ctor.rseq, h =>
    intro hc
    rcases isIntStr_chars h ',' hc with h2 | h2
    · exact absurd h2 (by decide)
    · exact absurd h2 (by decide)
  | some Ctor.rstr, h =>
    intro hc
    exact absurd (isAlphaStr_chars h ',' hc) (by decide)

theorem genFields_no_comma (R : ℕ → ℕ) (x : ℚ) (plan : List (Option Ctor))
    (s : PState) : ∀ f ∈ (genFields R x plan s).1, ',' ∉ f.data := by
  intro f hf
  have h := genFields_forall₂ R x plan s
  rw [List.forall₂_iff_get] at h
  obtain ⟨j, hj, rfl⟩ := List.mem_iff_get.1 hf
  exact fieldMatches_no_comma (h.2 j (by omega) j.isLt)

/-! ### The shape of the filler plan -/

theorem buildPlanAux_forall₂ (R : ℕ → ℕ) (k : ℤ) :
    ∀ (idxs : List ℤ) (s : PState),
      List.Forall₂ (fun (i : ℤ) (p : Option Ctor) =>
          (i = k → p = none) ∧
          (i ≠ k → ∃ r : ℕ,
            p = some (RANDOM_CTORS.getD (r % RANDOM_CTORS.length) Ctor.rint)))
        idxs (buildPlanAux R k idxs s).1 := by
  intro idxs
  induction idxs with
  | nil => intro s; exact List.Forall₂.nil
  | cons i is ih =>
    intro s
    by_cases hi : i = k
    · have he : (buildPlanAux R k (i :: is) s).1
          = none :: (buildPlanAux R k is s).1 := by
        simp [buildPlanAux, hi]
      rw [he]
      exact List.Forall₂.cons ⟨fun _ => rfl, fun hne => absurd hi hne⟩ (ih s)
    · have he : (buildPlanAux R k (i :: is) s).1
          = some (pyChoice R RANDOM_CTORS s).1
              :: (buildPlanAux R k is (pyChoice R RANDOM_CTORS s).2).1 := by
        simp [buildPlanAux, hi]
      rw [he]
      exact List.Forall₂.cons
        ⟨fun heq => absurd heq hi, fun _ => ⟨R s.ridx, rfl⟩⟩ (ih _)

theorem buildPlanAux_length (R : ℕ → ℕ) (k : ℤ) (idxs : List ℤ) (s : PState) :
    (buildPlanAux R k idxs s).1.length = idxs.length :=
  (buildPlanAux_forall₂ R k idxs s).length_eq.symm

theorem intRange_get (n : ℤ) (j : ℕ) (h : j < (intRange n).length) :
    (intRange n).get ⟨j, h⟩ = (j : ℤ) := by
  simp only [intRange, List.get_eq_getElem, List.getElem_map, List.getElem_range]

theorem intRange_length (n : ℤ) : (intRange n).length = n.toNat := by
  simp only [intRange, List.length_map, List.length_range]

theorem buildPlan_get (R : ℕ → ℕ) (k n : ℤ) (s : PState) (j : ℕ)
    (hj : j < (buildPlanAux R k (intRange n) s).1.length) :
    (((j : ℤ) = k →
        (buildPlanAux R k (intRange n) s).1.get ⟨j, hj⟩ = none) ∧
      ((j : ℤ) ≠ k → ∃ r : ℕ,
        (buildPlanAux R k (intRange n) s).1.get ⟨j, hj⟩
          = some (RANDOM_CTORS.getD (r % RANDOM_CTORS.length) Ctor.rint))) := by
  have h := buildPlanAux_forall₂ R k (intRange n) s
  rw [List.forall₂_iff_get] at h
  have hj2 : j < (intRange n).length := by
    rw [← h.1] at hj
    exact hj
  have := h.2 j hj2 hj
  rw [intRange_get n j hj2] at this
  exact this

/-! ### The emission loop -/

theorem emitLines_length (G : ℕ → ℚ) (mu sigma : ℚ)
    (po : ℚ → PState → String × PState) :
    ∀ (n : ℕ) (s : PState), (emitLines G mu sigma po n s).1.length = n := by
  intro n
  induction n with
  | zero => intro s; rfl
  | succ m ih => intro s; simpa [emitLines] using ih _

theorem forall₂_mem_right {α β : Type} {P : α → β → Prop} :
    ∀ {l1 : List α} {l2 : List β}, List.Forall₂ P l1 l2 →
      ∀ {b : β}, b ∈ l2 → ∃ a, a ∈ l1 ∧ P a b := by
  intro l1 l2 h
  induction h with
  | nil => intro b hb; exact absurd hb (List.not_mem_nil _)
  | cons hab _ ih =>
    intro b hb
    rcases List.mem_cons.1 hb with rfl | hb2
    · exact ⟨_, List.mem_cons_self _ _, hab⟩
    · obtain ⟨a, ha, hP⟩ := ih hb2
      exact ⟨a, List.mem_cons_of_mem _ ha, hP⟩

theorem getD_of_lt {α : Type} (l : List α) (d : α) (i : ℕ) (h : i < l.length) :
    l.getD i d = l.get ⟨i, h⟩ := by
  rw [List.getD_eq_getElem?_getD, List.getElem?_eq_getElem h]
  rfl

theorem emitLines_forall₂ (G : ℕ → ℚ) (mu sigma : ℚ)
    (po : ℚ → PState → String × PState)
    (hpo : ∀ x u, ((po x u).2).gidx = u.gidx) :
    ∀ (n : ℕ) (s : PState),
      List.Forall₂ (fun (i : ℕ) (line : String) =>
          ∃ t : PState, t.gidx = s.gidx + i ∧
            line = (po (mu + G t.gidx * sigma) { t with gidx := t.gidx + 1 }).1)
        (List.range n) (emitLines G mu sigma po n s).1 := by
  intro n
  induction n with
  | zero => intro s; exact List.Forall₂.nil
  | succ m ih =>
    intro s
    rw [List.range_succ_eq_map]
    have he : (emitLines G mu sigma po (m + 1) s).1
        = (po (mu + G s.gidx * sigma) { s with gidx := s.gidx + 1 }).1
          :: (emitLines G mu sigma po m
              ((po (mu + G s.gidx * sigma) { s with gidx := s.gidx + 1 }).2)).1 := rfl
    rw [he]
    refine List.Forall₂.cons ⟨s, by omega, rfl⟩ ?_
    rw [List.forall₂_map_left_iff]
    have hg : ((po (mu + G s.gidx * sigma) { s with gidx := s.gidx + 1 }).2).gidx
        = s.gidx + 1 := hpo _ _
    refine (ih _).imp ?_
    rintro a b ⟨t, ht, hline⟩
    exact ⟨t, by omega, hline⟩

/-! ### Sequential-counter tracking through a run -/

theorem genFields_seq (R : ℕ → ℕ) (x : ℚ) :
    ∀ (plan : List (Option Ctor)) (s : PState),
      seqFields plan (genFields R x plan s).1
        = (List.range (countSeq plan)).map
            (fun t : ℕ => intStr (s.seqN + 1 + t)) ∧
      ((genFields R x plan s).2).seqN = s.seqN + countSeq plan := by
  intro plan
  induction plan with
  | nil =>
    intro s
    constructor
    · rfl
    · show s.seqN = s.seqN + (0 : ℕ)
      simp
  | cons p rest ih =>
    intro s
    cases p with
    | none =>
      have hc : countSeq (none :: rest) = countSeq rest := by
        simp [countSeq, List.countP_cons]
      have hf : (genFields R x (none :: rest) s).1
          = pyFloatStr x :: (genFields R x rest s).1 := rfl
      have hs : (genFields R x (none :: rest) s).2
          = (genFields R x rest s).2 := rfl
      refine ⟨?_, by rw [hs, hc]; exact (ih s).2⟩
      rw [hf, hc]
      show List.filterMap _ (((none : Option Ctor) :: rest).zip
        (pyFloatStr x :: (genFields R x rest s).1)) = _
      rw [List.zip_cons_cons, List.filterMap_cons]
      simpa [seqFields] using (ih s).1
    | some c =>
      have hf : (genFields R x (some c :: rest) s).1
          = (runCtor R c s).1 :: (genFields R x rest (runCtor R c s).2).1 := rfl
      have hs : (genFields R x (some c :: rest) s).2
          = (genFields R x rest (runCtor R c s).2).2 := rfl
      cases c with
      | rint =>
        have hc : countSeq (some Ctor.rint :: rest) = countSeq rest := by
          simp [countSeq, List.countP_cons]
        have hsN : ((runCtor R Ctor.rint s).2).seqN = s.seqN := rfl
        refine ⟨?_, ?_⟩
        · rw [hf, hc]
          show List.filterMap _ ((some Ctor.rint :: rest).zip
            ((runCtor R Ctor.rint s).1 :: (genFields R x rest (runCtor R Ctor.rint s).2).1)) = _
          rw [List.zip_cons_cons, List.filterMap_cons]
          have := (ih ((runCtor R Ctor.rint s).2)).1
          rw [hsN] at this
          simpa [seqFields] using this
        · rw [hs, hc]
          have := (ih ((runCtor R Ctor.rint s).2)).2
          rw [hsN] at this
          exact this
      | rstr =>
        have hc : countSeq (some Ctor.rstr :: rest) = countSeq rest := by
          simp [countSeq, List.countP_cons]
        have hsN : ((runCtor R Ctor.rstr s).2).seqN = s.seqN := random_str_seqN R s
        refine ⟨?_, ?_⟩
        · rw [hf, hc]
          show List.filterMap _ ((some Ctor.rstr :: rest).zip
            ((runCtor R Ctor.rstr s).1 :: (genFields R x rest (runCtor R Ctor.rstr s).2).1)) = _
          rw [List.zip_cons_cons, List.filterMap_cons]
          have := (ih ((runCtor R Ctor.rstr s).2)).1
          rw [hsN] at this
          simpa [seqFields] using this
        · rw [hs, hc]
          have := (ih ((runCtor R Ctor.rstr s).2)).2
          rw [hsN] at this
          exact this
      | rseq =>
        have hc : countSeq (some Ctor.rseq :: rest) = countSeq rest + 1 := by
          simp [countSeq, List.countP_cons]
        have hsN : ((runCtor R Ctor.rseq s).2).seqN = s.seqN + 1 := rfl
        refine ⟨?_, ?_⟩
        · rw [hf, hc]
          show List.filterMap _ ((some Ctor.rseq :: rest).zip
            ((runCtor R Ctor.rseq s).1 :: (genFields R x rest (runCtor R Ctor.rseq s).2).1)) = _
          rw [List.zip_cons_cons, List.filterMap_cons]
          have hrow := (ih ((runCtor R Ctor.rseq s).2)).1
          rw [hsN] at hrow
          have hhead : (runCtor R Ctor.rseq s).1 = intStr (s.seqN + 1) := rfl
          rw [List.range_succ_eq_map, List.map_cons, List.map_map]
          simp only [seqFields] at hrow ⊢
          rw [hrow, hhead]
          rw [if_pos trivial]
          show intStr (s.seqN + 1) :: _ = _
          congr 1
          · congr 1
            simp
          · apply List.map_congr_left
            intro t _
            show intStr (s.seqN + 1 + 1 + (t : ℤ)) = intStr (s.seqN + 1 + ((t : ℕ).succ : ℤ))
            congr 1
            push_cast
            ring
        · rw [hs, hc]
          have := (ih ((runCtor R Ctor.rseq s).2)).2
          rw [hsN] at this
          rw [this]
          push_cast
          ring

theorem genFields_ne_nil (R : ℕ → ℕ) (x : ℚ) {plan : List (Option Ctor)}
    (h : plan ≠ []) (s : PState) : (genFields R x plan s).1 ≠ [] := by
  intro he
  have := genFields_length R x plan s
  rw [he] at this
  exact h (List.length_eq_zero.1 this.symm)

theorem splitComma_printOneCsv (R : ℕ → ℕ) (x : ℚ)
    {plan : List (Option Ctor)} (h : plan ≠ []) (s : PState) :
    splitComma (printOneCsv R plan x s).1 = (genFields R x plan s).1 := by
  show splitComma (joinComma (genFields R x plan s).1) = _
  exact splitComma_joinComma _ (genFields_ne_nil R x h s)
    (genFields_no_comma R x plan s)

theorem emitLines_seq (R : ℕ → ℕ) (G : ℕ → ℚ) (mu sigma : ℚ)
    (plan : List (Option Ctor)) :
    ∀ (n : ℕ) (s : PState),
      ((emitLines G mu sigma (printOneCsv R plan) n s).1.flatMap
          (fun line => seqFields plan (splitComma line)))
        = (List.range (n * countSeq plan)).map
            (fun t : ℕ => intStr (s.seqN + 1 + t)) ∧
      ((emitLines G mu sigma (printOneCsv R plan) n s).2).seqN
        = s.seqN + n * countSeq plan := by
  intro n
  induction n with
  | zero =>
    intro s
    constructor
    · show ([] : List String).flatMap _ = _
      simp [Nat.zero_mul]
    · show s.seqN = s.seqN + ((0 * countSeq plan : ℕ) : ℤ)
      simp
  | succ m ih =>
    intro s
    set x : ℚ := mu + G s.gidx * sigma with hx
    set s1 : PState := { s with gidx := s.gidx + 1 } with hs1
    have hrow : (emitLines G mu sigma (printOneCsv R plan) (m + 1) s).1
        = (printOneCsv R plan x s1).1
          :: (emitLines G mu sigma (printOneCsv R plan) m
              ((printOneCsv R plan x s1).2)).1 := rfl
    have hrow2 : (emitLines G mu sigma (printOneCsv R plan) (m + 1) s).2
        = (emitLines G mu sigma (printOneCsv R plan) m
            ((printOneCsv R plan x s1).2)).2 := rfl
    have hs1N : s1.seqN = s.seqN := rfl
    have hcontrib : seqFields plan (splitComma (printOneCsv R plan x s1).1)
        = (List.range (countSeq plan)).map
            (fun t : ℕ => intStr (s.seqN + 1 + t)) := by
      by_cases hpl : plan = []
      · subst hpl
        show ([].zip (splitComma (printOneCsv R [] x s1).1)).filterMap _ = _
        simp [countSeq]
      · rw [splitComma_printOneCsv R x hpl s1]
        have := (genFields_seq R x plan s1).1
        rw [hs1N] at this
        exact this
    have hsstep : ((printOneCsv R plan x s1).2).seqN
        = s.seqN + countSeq plan := by
      have := (genFields_seq R x plan s1).2
      rw [hs1N] at this
      exact this
    have ihm := ih ((printOneCsv R plan x s1).2)
    constructor
    · rw [hrow, List.flatMap_cons, hcontrib, ihm.1, hsstep]
      have hn : (m + 1) * countSeq plan = countSeq plan + m * countSeq plan := by
        ring
      rw [hn, List.range_add, List.map_append, List.map_map]
      congr 1
      apply List.map_congr_left
      intro t _
      show intStr (s.seqN + countSeq plan + 1 + (t : ℤ))
        = intStr (s.seqN + 1 + ((countSeq plan + t : ℕ) : ℤ))
      congr 1
      push_cast
      ring
    · rw [hrow2, ihm.2, hsstep]
      push_cast
      ring

/-- In CSV mode, the printed lines are the emission loop run with the plan
built once up front, starting from the post-plan state. -/
theorem runMain_csv_lines (R : ℕ → ℕ) (G : ℕ → ℚ) (c : Config) (k : ℤ)
    (h1 : c.distr = "gauss") (h2 : c.csv_col = some k)
    {lines : List String} (hrun : runMain R G c = Except.ok lines) :
    lines = (emitLines G c.mean c.stdev
        (printOneCsv R (buildPlanAux R k (intRange c.csv_col_max) initState).1)
        c.count.toNat
        (buildPlanAux R k (intRange c.csv_col_max) initState).2).1 := by
  unfold runMain at hrun
  rw [if_pos h1, h2] at hrun
  exact (Except.ok.inj hrun).symm

/-- Every emitted CSV line splits back into its generated fields, and field
`j` has the observable shape dictated by plan entry `j`; the row's sample
is existentially quantified. -/
theorem csv_field_matches (R : ℕ → ℕ) (G : ℕ → ℚ) (c : Config) (k : ℤ)
    (h1 : c.distr = "gauss") (h2 : c.csv_col = some k)
    {lines : List String} (hrun : runMain R G c = Except.ok lines)
    (hne : (buildPlanAux R k (intRange c.csv_col_max) initState).1 ≠ [])
    (j : ℕ) (hjl : j < (buildPlanAux R k (intRange c.csv_col_max) initState).1.length) :
    ∀ line ∈ lines, ∃ x : ℚ,
      FieldMatches x
        ((buildPlanAux R k (intRange c.csv_col_max) initState).1.get ⟨j, hjl⟩)
        ((splitComma line).getD j "") := by
  intro line hline
  rw [runMain_csv_lines R G c k h1 h2 hrun] at hline
  have hfa := emitLines_forall₂ G c.mean c.stdev
    (printOneCsv R (buildPlanAux R k (intRange c.csv_col_max) initState).1)
    (printOneCsv_gidx R _)
    c.count.toNat (buildPlanAux R k (intRange c.csv_col_max) initState).2
  obtain ⟨i, _, t, _, hlineq⟩ := forall₂_mem_right hfa hline
  refine ⟨c.mean + G t.gidx * c.stdev, ?_⟩
  rw [hlineq, splitComma_printOneCsv R _ hne _]
  have hfa2 := genFields_forall₂ R (c.mean + G t.gidx * c.stdev)
    (buildPlanAux R k (intRange c.csv_col_max) initState).1
    { t with gidx := t.gidx + 1 }
  rw [List.forall₂_iff_get] at hfa2
  have hjf : j < (genFields R (c.mean + G t.gidx * c.stdev)
      (buildPlanAux R k (intRange c.csv_col_max) initState).1
      { t with gidx := t.gidx + 1 }).1.length := by
    rw [genFields_length]
    exact hjl
  rw [getD_of_lt _ _ _ hjf]
  exact hfa2.2 j hjl hjf

/-! ### Claim theorems -/

/-- C1: for every configuration with a supported distribution and
`count = N ≥ 0`, the run succeeds and emits exactly `N` lines, produced by
the sample-then-emit loop. -/
theorem claim_C1_emits_count_lines (R : ℕ → ℕ) (G : ℕ → ℚ) (c : Config)
    (h1 : c.distr = "gauss") (h2 : 0 ≤ c.count) :
    ∃ lines : List String, runMain R G c = Except.ok lines ∧
      (lines.length : ℤ) = c.count := by
  unfold runMain
  rw [if_pos h1]
  cases hcsv : c.csv_col with
  | none =>
    refine ⟨_, rfl, ?_⟩
    rw [emitLines_length]
    exact Int.toNat_of_nonneg h2
  | some k =>
    refine ⟨_, rfl, ?_⟩
    rw [emitLines_length]
    exact Int.toNat_of_nonneg h2

/-- C1 witness: a concrete two-line run. -/
theorem claim_C1_witness :
    ∃ lines : List String, runMain R0 G0 configPlain = Except.ok lines ∧
      (lines.length : ℤ) = configPlain.count :=
  claim_C1_emits_count_lines R0 G0 configPlain rfl (by decide)

/-- C3: any `--distr` value other than "gauss" terminates the run with the
fatal configuration error; no data line is emitted (there is no output list
at all), whatever the random draws would have been. -/
theorem claim_C3_invalid_distr (R : ℕ → ℕ) (G : ℕ → ℚ) (c : Config)
    (h : c.distr ≠ "gauss") :
    runMain R G c = Except.error ("Invalid distr " ++ c.distr) := by
  unfold runMain
  rw [if_neg h]

/-- C3 witness: the error on the concrete distribution name "uniform". -/
theorem claim_C3_witness :
    runMain R0 G0 configBad
      = Except.error ("Invalid distr " ++ configBad.distr) :=
  claim_C3_invalid_distr R0 G0 configBad (by decide)

/-- C4 counterexample: the shared counter attribute `_seq_int.N` is
initialized to `-1` (line 12 of the source), not to `0` as the claim
states. -/
theorem claim_C4_counterexample :
    initState.seqN = -1 ∧ ¬ initState.seqN = 0 := by decide

/-- Closed form for iterated `_seq_int` invocations from any state. -/
theorem seqOutputs_eq :
    ∀ (n : ℕ) (s : PState),
      seqOutputs n s = (List.range n).map (fun t : ℕ => s.seqN + 1 + t) := by
  intro n
  induction n with
  | zero => intro s; rfl
  | succ m ih =>
    intro s
    show (s.seqN + 1) :: seqOutputs m { s with seqN := s.seqN + 1 } = _
    rw [ih, List.range_succ_eq_map, List.map_cons, List.map_map]
    congr 1
    · simp
    · apply List.map_congr_left
      intro t _
      show s.seqN + 1 + 1 + (t : ℤ) = s.seqN + 1 + ((t : ℕ).succ : ℤ)
      push_cast
      ring

/-- C4 (amended): the process-wide counter behind the sequential filler is
initialized to `-1` and incremented before each return, with no resets
within a run, so `n` consecutive invocations return the consecutive
strictly increasing integers `0, 1, ..., n-1`. -/
theorem claim_C4_seq_counter (n : ℕ) :
    seqOutputs n initState = (List.range n).map (fun t : ℕ => (t : ℤ)) := by
  rw [seqOutputs_eq]
  apply List.map_congr_left
  intro t _
  show initState.seqN + 1 + (t : ℤ) = (t : ℤ)
  show (-1 : ℤ) + 1 + (t : ℤ) = (t : ℤ)
  ring

/-- C8: with count 5, distribution "gauss", mean 0 and stdev 0 the run
prints exactly five lines, each `0.0`, for every possible draw of the
underlying gaussian noise source. -/
theorem claim_C8_zero_stdev (R : ℕ → ℕ) (G : ℕ → ℚ) :
    runMain R G config8 = Except.ok ["0.0", "0.0", "0.0", "0.0", "0.0"] := by
  have hz : pyFloatStr 0 = "0.0" := by decide
  show Except.ok (emitLines G 0 0 printOnePlain 5 initState).1 = _
  simp [emitLines, pyGauss, printOnePlain, mul_zero, add_zero, hz]

/-- C9: a negative `--count` is accepted, the loop body never runs, the
run succeeds with zero lines. -/
theorem claim_C9_negative_count (R : ℕ → ℕ) (G : ℕ → ℚ) (c : Config)
    (h1 : c.distr = "gauss") (h2 : c.count < 0) :
    runMain R G c = Except.ok [] := by
  unfold runMain
  rw [if_pos h1]
  have hz : c.count.toNat = 0 := by omega
  cases hcsv : c.csv_col with
  | none => rw [hz]; rfl
  | some k => rw [hz]; rfl

/-- C9 witness: the concrete count -3. -/
theorem claim_C9_witness : runMain R0 G0 configNeg = Except.ok [] :=
  claim_C9_negative_count R0 G0 configNeg rfl (by decide)

/-- C5: in CSV mode the filler plan is an invariant of the run: each
non-target column shows one fixed observable field kind, integer-like or
lowercase-string-like, on every emitted row. -/
theorem claim_C5_plan_invariant (R : ℕ → ℕ) (G : ℕ → ℚ) (c : Config) (k : ℤ)
    (h1 : c.distr = "gauss") (h2 : c.csv_col = some k)
    (lines : List String) (hrun : runMain R G c = Except.ok lines)
    (j : ℕ) (hj : j < c.csv_col_max.toNat) (hjk : (j : ℤ) ≠ k) :
    (∀ line ∈ lines, isIntStr ((splitComma line).getD j "") = true) ∨
    (∀ line ∈ lines, isAlphaStr ((splitComma line).getD j "") = true) := by
  have hjl : j < (buildPlanAux R k (intRange c.csv_col_max) initState).1.length := by
    rw [buildPlanAux_length, intRange_length]
    exact hj
  have hne : (buildPlanAux R k (intRange c.csv_col_max) initState).1 ≠ [] := by
    intro he
    rw [he] at hjl
    exact absurd hjl (by simp)
  obtain ⟨r, hr⟩ := (buildPlan_get R k c.csv_col_max initState j hjl).2 hjk
  have hfield := csv_field_matches R G c k h1 h2 hrun hne j hjl
  rw [hr] at hfield
  cases hct : RANDOM_CTORS.getD (r % RANDOM_CTORS.length) Ctor.rint with
  | rint =>
    left
    intro line hl
    obtain ⟨x, hm⟩ := hfield line hl
    rw [hct] at hm
    exact hm
  | rseq =>
    left
    intro line hl
    obtain ⟨x, hm⟩ := hfield line hl
    rw [hct] at hm
    exact hm
  | rstr =>
    right
    intro line hl
    obtain ⟨x, hm⟩ := hfield line hl
    rw [hct] at hm
    exact hm

/-- C5 witness: a concrete one-row run with the value in column 1 of 3;
column 0 is classified. -/
theorem claim_C5_witness :
    (∀ line ∈ ["0,0.0,1"], isIntStr ((splitComma line).getD 0 "") = true) ∨
    (∀ line ∈ ["0,0.0,1"], isAlphaStr ((splitComma line).getD 0 "") = true) := by
  refine claim_C5_plan_invariant R1 G0 configCsv 1 rfl rfl ["0,0.0,1"] ?_ 0
    (by decide) (by decide)
  norm_num [runMain, configCsv, emitLines, pyGauss, printOneCsv, genFields,
    buildPlanAux, pyChoice, runCtor, seq_int, intRange, initState,
    RANDOM_CTORS, joinComma, R1, G0]
  decide

/-- C6: each non-target column's filler generator is selected by a uniform
index into the four-element pool `RANDOM_CTORS`, in which the random-string
generator occupies two of the four equally likely slots and the
random-integer and sequential-counter generators one slot each. -/
theorem claim_C6_pool_weights (R : ℕ → ℕ) (k M : ℤ) (j : ℕ)
    (hj : j < M.toNat) (hjk : (j : ℤ) ≠ k) :
    (∃ r : ℕ,
      (buildPlanAux R k (intRange M) initState).1.getD j none
        = some (RANDOM_CTORS.getD (r % RANDOM_CTORS.length) Ctor.rint)) ∧
    RANDOM_CTORS = [Ctor.rint, Ctor.rseq, Ctor.rstr, Ctor.rstr] ∧
    RANDOM_CTORS.length = 4 ∧
    RANDOM_CTORS.count Ctor.rstr = 2 ∧
    RANDOM_CTORS.count Ctor.rint = 1 ∧
    RANDOM_CTORS.count Ctor.rseq = 1 ∧
    ((List.range 4).filter (fun r : ℕ =>
      RANDOM_CTORS.getD (r % RANDOM_CTORS.length) Ctor.rint
        = Ctor.rstr)).length = 2 ∧
    ((List.range 4).filter (fun r : ℕ =>
      RANDOM_CTORS.getD (r % RANDOM_CTORS.length) Ctor.rint
        = Ctor.rint)).length = 1 ∧
    ((List.range 4).filter (fun r : ℕ =>
      RANDOM_CTORS.getD (r % RANDOM_CTORS.length) Ctor.rint
        = Ctor.rseq)).length = 1 := by
  constructor
  · have hlen : j < (buildPlanAux R k (intRange M) initState).1.length := by
      rw [buildPlanAux_length, intRange_length]
      exact hj
    obtain ⟨r, hr⟩ := (buildPlan_get R k M initState j hlen).2 hjk
    refine ⟨r, ?_⟩
    rw [getD_of_lt _ _ _ hlen, hr]
  · refine ⟨rfl, ?_⟩
    decide

/-- C6 witness: column 0 of a 3-column plan with target column 1. -/
theorem claim_C6_witness :
    (∃ r : ℕ,
      (buildPlanAux R0 1 (intRange 3) initState).1.getD 0 none
        = some (RANDOM_CTORS.getD (r % RANDOM_CTORS.length) Ctor.rint)) ∧
    RANDOM_CTORS = [Ctor.rint, Ctor.rseq, Ctor.rstr, Ctor.rstr] ∧
    RANDOM_CTORS.length = 4 ∧
    RANDOM_CTORS.count Ctor.rstr = 2 ∧
    RANDOM_CTORS.count Ctor.rint = 1 ∧
    RANDOM_CTORS.count Ctor.rseq = 1 ∧
    ((List.range 4).filter (fun r : ℕ =>
      RANDOM_CTORS.getD (r % RANDOM_CTORS.length) Ctor.rint
        = Ctor.rstr)).length = 2 ∧
    ((List.range 4).filter (fun r : ℕ =>
      RANDOM_CTORS.getD (r % RANDOM_CTORS.length) Ctor.rint
        = Ctor.rint)).length = 1 ∧
    ((List.range 4).filter (fun r : ℕ =>
      RANDOM_CTORS.getD (r % RANDOM_CTORS.length) Ctor.rint
        = Ctor.rseq)).length = 1 :=
  claim_C6_pool_weights R0 1 3 0 (by decide) (by decide)

/-- C2: in CSV mode with `csv-col = k`, `csv-col-max = M` and `0 ≤ k < M`,
every emitted line splits into exactly `M` comma-separated fields, the field
at index `k` is the rendered sample of that row, and it parses as a
floating-point literal. -/
theorem claim_C2_csv_fields (R : ℕ → ℕ) (G : ℕ → ℚ) (c : Config) (k : ℤ)
    (h1 : c.distr = "gauss") (h2 : c.csv_col = some k)
    (hk0 : 0 ≤ k) (hkM : k < c.csv_col_max)
    (lines : List String) (hrun : runMain R G c = Except.ok lines)
    (i : ℕ) (hi : i < lines.length) :
    (splitComma (lines.getD i "")).length = c.csv_col_max.toNat ∧
    (splitComma (lines.getD i "")).getD k.toNat ""
      = pyFloatStr (c.mean + G i * c.stdev) ∧
    parsesAsFloat ((splitComma (lines.getD i "")).getD k.toNat "") = true := by
  have hlines := runMain_csv_lines R G c k h1 h2 hrun
  set plan := (buildPlanAux R k (intRange c.csv_col_max) initState).1 with hplandef
  set s0 := (buildPlanAux R k (intRange c.csv_col_max) initState).2 with hs0def
  have hplen : plan.length = c.csv_col_max.toNat := by
    rw [hplandef, buildPlanAux_length, intRange_length]
  have hkl : k.toNat < plan.length := by
    rw [hplen]
    omega
  have hne : plan ≠ [] := by
    intro he
    rw [he] at hkl
    exact absurd hkl (by simp)
  have hfa := emitLines_forall₂ G c.mean c.stdev (printOneCsv R plan)
    (printOneCsv_gidx R plan) c.count.toNat s0
  rw [List.forall₂_iff_get] at hfa
  have hi1 : i < (emitLines G c.mean c.stdev (printOneCsv R plan)
      c.count.toNat s0).1.length := by
    rw [← hlines]
    exact hi
  have hi0 : i < (List.range c.count.toNat).length := by
    rw [List.length_range]
    rw [emitLines_length] at hi1
    exact hi1
  have hP := hfa.2 i hi0 hi1
  have hgr : (List.range c.count.toNat).get ⟨i, hi0⟩ = i := by
    simp [List.get_eq_getElem, List.getElem_range]
  rw [hgr] at hP
  obtain ⟨t, htg, hlineq⟩ := hP
  have htg0 : t.gidx = i := by
    rw [hs0def, buildPlanAux_gidx] at htg
    simpa [initState] using htg
  have hLD : lines.getD i ""
      = (printOneCsv R plan (c.mean + G t.gidx * c.stdev)
          { t with gidx := t.gidx + 1 }).1 := by
    rw [hlines, getD_of_lt _ _ _ hi1]
    exact hlineq
  have hsplit : splitComma (lines.getD i "")
      = (genFields R (c.mean + G t.gidx * c.stdev) plan
          { t with gidx := t.gidx + 1 }).1 := by
    rw [hLD]
    exact splitComma_printOneCsv R _ hne _
  have hkf : k.toNat < (genFields R (c.mean + G t.gidx * c.stdev) plan
      { t with gidx := t.gidx + 1 }).1.length := by
    rw [genFields_length]
    exact hkl
  have hplank : plan.get ⟨k.toNat, hkl⟩ = none := by
    refine (buildPlan_get R k c.csv_col_max initState k.toNat hkl).1 ?_
    exact Int.toNat_of_nonneg hk0
  have hfa2 := genFields_forall₂ R (c.mean + G t.gidx * c.stdev) plan
    { t with gidx := t.gidx + 1 }
  rw [List.forall₂_iff_get] at hfa2
  have hmatch := hfa2.2 k.toNat hkl hkf
  rw [hplank] at hmatch
  have hval : (splitComma (lines.getD i "")).getD k.toNat ""
      = pyFloatStr (c.mean + G i * c.stdev) := by
    rw [hsplit, getD_of_lt _ _ _ hkf, ← htg0]
    exact hmatch
  refine ⟨?_, hval, ?_⟩
  · rw [hsplit, genFields_length, hplen]
  · rw [hval]
    exact parsesAsFloat_pyFloatStr _

/-- C2 witness: the concrete one-row run `0,0.0,1` with the value in
column 1 of 3. -/
theorem claim_C2_witness :
    (splitComma ((["0,0.0,1"] : List String).getD 0 "")).length
      = configCsv.csv_col_max.toNat ∧
    List.getD (splitComma ((["0,0.0,1"] : List String).getD 0 ""))
        (1 : ℤ).toNat ""
      = pyFloatStr (configCsv.mean + G0 0 * configCsv.stdev) ∧
    parsesAsFloat (List.getD
        (splitComma ((["0,0.0,1"] : List String).getD 0 ""))
        (1 : ℤ).toNat "") = true := by
  refine claim_C2_csv_fields R1 G0 configCsv 1 rfl rfl (by decide) (by decide)
    ["0,0.0,1"] ?_ 0 (by decide)
  norm_num [runMain, configCsv, emitLines, pyGauss, printOneCsv, genFields,
    buildPlanAux, pyChoice, runCtor, seq_int, intRange, initState,
    RANDOM_CTORS, joinComma, R1, G0]
  decide

/-- C7 counterexample: with `csv-col = 1` outside `[0, csv-col-max)` and
`csv-col-max = 0`, the program emits one empty line, and an empty line
splits into one field, not into `csv-col-max = 0` fields. -/
theorem claim_C7_counterexample :
    configZeroCols.csv_col = some 1 ∧
    ¬ (0 ≤ (1 : ℤ) ∧ (1 : ℤ) < configZeroCols.csv_col_max) ∧
    runMain R0 G0 configZeroCols = Except.ok [""] ∧
    ¬ ((splitComma "").length = configZeroCols.csv_col_max.toNat) := by
  refine ⟨rfl, by decide, ?_, by decide⟩
  rfl

/-- C7 (amended): if `csv-col` is outside `[0, csv-col-max)` and
`csv-col-max ≥ 1`, the program still succeeds with `count` lines of
`csv-col-max` fields each; the plan has no value slot, every emitted field
has a filler shape (integer-like or lowercase-string-like), and the
rendering of a sampled value never has either of those shapes, so the
sample appears in no field. -/
theorem claim_C7_out_of_range (R : ℕ → ℕ) (G : ℕ → ℚ) (c : Config) (k : ℤ)
    (h1 : c.distr = "gauss") (h2 : c.csv_col = some k)
    (h3 : ¬(0 ≤ k ∧ k < c.csv_col_max)) (hM : 1 ≤ c.csv_col_max)
    (h4 : 0 ≤ c.count) :
    ∃ lines : List String, runMain R G c = Except.ok lines ∧
      (lines.length : ℤ) = c.count ∧
      (∀ p ∈ (buildPlanAux R k (intRange c.csv_col_max) initState).1,
        p ≠ none) ∧
      (∀ line ∈ lines,
        (splitComma line).length = c.csv_col_max.toNat ∧
        ∀ f ∈ splitComma line, isIntStr f = true ∨ isAlphaStr f = true) ∧
      (∀ q : ℚ, isIntStr (pyFloatStr q) = false ∧
        isAlphaStr (pyFloatStr q) = false) := by
  set plan := (buildPlanAux R k (intRange c.csv_col_max) initState).1 with hplandef
  set s0 := (buildPlanAux R k (intRange c.csv_col_max) initState).2 with hs0def
  have hplen : plan.length = c.csv_col_max.toNat := by
    rw [hplandef, buildPlanAux_length, intRange_length]
  have hne : plan ≠ [] := by
    intro he
    rw [he] at hplen
    simp at hplen
    omega
  have hnone : ∀ p ∈ plan, p ≠ none := by
    intro p hp
    obtain ⟨i, hi, hpr⟩ :=
      forall₂_mem_right (buildPlanAux_forall₂ R k (intRange c.csv_col_max) initState) hp
    have hik : i ≠ k := by
      simp only [intRange, List.mem_map, List.mem_range] at hi
      obtain ⟨j, hj, rfl⟩ := hi
      omega
    obtain ⟨r, hr⟩ := hpr.2 hik
    rw [hr]
    simp
  refine ⟨(emitLines G c.mean c.stdev (printOneCsv R plan)
    c.count.toNat s0).1, ?_, ?_, hnone, ?_, ?_⟩
  · unfold runMain
    rw [if_pos h1, h2]
  · rw [emitLines_length]
    exact Int.toNat_of_nonneg h4
  · intro line hline
    have hfa := emitLines_forall₂ G c.mean c.stdev (printOneCsv R plan)
      (printOneCsv_gidx R plan) c.count.toNat s0
    obtain ⟨i, _, t, _, hlineq⟩ := forall₂_mem_right hfa hline
    constructor
    · rw [hlineq, splitComma_printOneCsv R _ hne _, genFields_length, hplen]
    · intro f hf
      rw [hlineq, splitComma_printOneCsv R _ hne _] at hf
      obtain ⟨p, hp, hm⟩ :=
        forall₂_mem_right (genFields_forall₂ R _ plan _) hf
      cases p with
      | none => exact absurd rfl (hnone none hp)
      | some ct =>
        cases ct with
        | rint => exact Or.inl hm
        | rseq => exact Or.inl hm
        | rstr => exact Or.inr hm
  · intro q
    exact ⟨isIntStr_pyFloatStr q, isAlphaStr_pyFloatStr q⟩

/-- C7 witness: a one-row run with the target column 5 out of the 2-column
range. -/
theorem claim_C7_witness :
    ∃ lines : List String, runMain R0 G0 configOutOfRange = Except.ok lines ∧
      (lines.length : ℤ) = configOutOfRange.count ∧
      (∀ p ∈ (buildPlanAux R0 5
          (intRange configOutOfRange.csv_col_max) initState).1, p ≠ none) ∧
      (∀ line ∈ lines,
        (splitComma line).length = configOutOfRange.csv_col_max.toNat ∧
        ∀ f ∈ splitComma line, isIntStr f = true ∨ isAlphaStr f = true) ∧
      (∀ q : ℚ, isIntStr (pyFloatStr q) = false ∧
        isAlphaStr (pyFloatStr q) = false) :=
  claim_C7_out_of_range R0 G0 configOutOfRange 5 rfl rfl (by decide)
    (by decide) (by decide)

/-- C10: every sequential-counter column reads the one process-wide
counter, advanced once per invocation: over the whole run, the counter
fields taken in row-major, left-to-right order are exactly the consecutive
integers 0, 1, 2, ... rendered by `str`, and these values are pairwise
distinct (so within each row they strictly increase left to right, and each
invocation returns one more than the previous one anywhere in the
output). -/
theorem claim_C10_shared_counter (R : ℕ → ℕ) (G : ℕ → ℚ) (c : Config) (k : ℤ)
    (h1 : c.distr = "gauss") (h2 : c.csv_col = some k)
    (lines : List String) (hrun : runMain R G c = Except.ok lines) :
    lines.flatMap (fun line => seqFields
        (buildPlanAux R k (intRange c.csv_col_max) initState).1
        (splitComma line))
      = (List.range (c.count.toNat
            * countSeq (buildPlanAux R k (intRange c.csv_col_max) initState).1)).map
          (fun t : ℕ => intStr (t : ℤ)) ∧
    ((List.range (c.count.toNat
          * countSeq (buildPlanAux R k (intRange c.csv_col_max) initState).1)).map
        (fun t : ℕ => intStr (t : ℤ))).Nodup := by
  have hlines := runMain_csv_lines R G c k h1 h2 hrun
  set plan := (buildPlanAux R k (intRange c.csv_col_max) initState).1 with hplandef
  set s0 := (buildPlanAux R k (intRange c.csv_col_max) initState).2 with hs0def
  have hs0N : s0.seqN = -1 := by
    rw [hs0def, buildPlanAux_seqN]
    rfl
  have hint : ∀ t : ℕ, intStr ((t : ℕ) : ℤ) = natStr t := by
    intro t
    unfold intStr
    rw [if_neg (Int.not_lt.2 (Int.natCast_nonneg t))]
    simp
  constructor
  · rw [hlines]
    rw [(emitLines_seq R G c.mean c.stdev plan c.count.toNat s0).1]
    apply List.map_congr_left
    intro t _
    congr 1
    rw [hs0N]
    ring
  · refine List.Nodup.map ?_ (List.nodup_range _)
    intro a b hab
    have hab2 : intStr ((a : ℕ) : ℤ) = intStr ((b : ℕ) : ℤ) := hab
    rw [hint a, hint b] at hab2
    exact natStr_inj hab2

/-- C10 witness: a concrete run in which both filler columns use the
sequential counter; its fields across the run read 0 then 1. -/
theorem claim_C10_witness :
    (["0,0.0,1"] : List String).flatMap (fun line => seqFields
        (buildPlanAux R1 1 (intRange configCsv.csv_col_max) initState).1
        (splitComma line))
      = (List.range (configCsv.count.toNat
            * countSeq (buildPlanAux R1 1
                (intRange configCsv.csv_col_max) initState).1)).map
          (fun t : ℕ => intStr (t : ℤ)) ∧
    ((List.range (configCsv.count.toNat
          * countSeq (buildPlanAux R1 1
              (intRange configCsv.csv_col_max) initState).1)).map
        (fun t : ℕ => intStr (t : ℤ))).Nodup := by
  refine claim_C10_shared_counter R1 G0 configCsv 1 rfl rfl ["0,0.0,1"] ?_
  norm_num [runMain, configCsv, emitLines, pyGauss, printOneCsv, genFields,
    buildPlanAux, pyChoice, runCtor, seq_int, intRange, initState,
    RANDOM_CTORS, joinComma, R1, G0]
  decide

end MakeDataFile
